import Mathlib

/-!
Verification development for the mishka_ai conversational orchestration engine.

The repository sources available here are the admin frontend
(services/mishka-frontend/src/pages/Personality.tsx and the routing shell),
service READMEs and Makefiles.  The backend components (personality store,
task intake serializer, reasoning loop, tool registry and invoker, context
assembler) are declared and called by these sources but their implementation
is not part of the source tree, so they are modelled from the specification
(each such definition carries a doc comment starting "Modelled from the
spec:").  The frontend components are embedded directly from the TSX source.
-/

namespace Mishka

/-- Personality record, as in the data model and in Personality.tsx
(interface Personality: id, name, base_prompt, is_active). Ids are
modelled as natural numbers. -/
structure Personality where
  id : Nat
  name : String
  base_prompt : String
  is_active : Bool
deriving DecidableEq

/-- EvolutionLog record, as in the data model and in Personality.tsx
(interface EvolutionLog: id, traits, reason, created_at; the data model
additionally records personality_id).  created_at is modelled as a
natural-number timestamp. -/
structure EvolutionLog where
  id : Nat
  personality_id : Nat
  traits : String
  reason : String
  created_at : Nat
deriving DecidableEq

/-- Number of personalities flagged active in a store state. -/
def countActive (ps : List Personality) : Nat :=
  (ps.filter (fun p => p.is_active)).length

/-- Modelled from the spec: the personality administration backend is not in
the source tree.  Per section 4.5, activate(id) is atomic: it sets the target
active and all others inactive within one transaction; an unknown id is a
consistency error and the operation is rejected (returns none). -/
def activate (ps : List Personality) (target : Nat) : Option (List Personality) :=
  if ps.any (fun p => p.id == target) then
    some (ps.map (fun p => { p with is_active := p.id == target }))
  else
    none

/-- Modelled from the spec: the personality administration backend is not in
the source tree.  create(name, base_prompt) adds a new personality by explicit
admin action; a newly created personality is not the active one. -/
def create (ps : List Personality) (newId : Nat) (nm base : String) :
    List Personality :=
  ps ++ [{ id := newId, name := nm, base_prompt := base, is_active := false }]

/-- Modelled from the spec: the personality administration backend is not in
the source tree.  update(id, fields) edits name and base prompt of one
personality and does not touch the active flag. -/
def updateP (ps : List Personality) (target : Nat) (nm base : String) :
    List Personality :=
  ps.map (fun p =>
    if p.id == target then { p with name := nm, base_prompt := base } else p)

/-- Reachable states of the personality store: an initial store holding the
one active personality, grown by create (with a fresh id), update and
activate. -/
inductive StoreReachable : List Personality → Prop where
  | init (i : Nat) (nm base : String) :
      StoreReachable [{ id := i, name := nm, base_prompt := base, is_active := true }]
  | create {ps : List Personality} (newId : Nat) (nm base : String) :
      StoreReachable ps → newId ∉ ps.map Personality.id →
      StoreReachable (create ps newId nm base)
  | update {ps : List Personality} (target : Nat) (nm base : String) :
      StoreReachable ps → StoreReachable (updateP ps target nm base)
  | activate {ps ps' : List Personality} (target : Nat) :
      StoreReachable ps → activate ps target = some ps' → StoreReachable ps'

/-- The store invariant: personality ids are distinct and exactly one
personality is active. -/
def StoreInv (ps : List Personality) : Prop :=
  (ps.map Personality.id).Nodup ∧ countActive ps = 1

/-- A two-personality store used to instantiate the store theorems. -/
def demoStore : List Personality :=
  [{ id := 1, name := "Mishka", base_prompt := "be kind", is_active := true },
   { id := 2, name := "Pirate", base_prompt := "arr", is_active := false }]

/-- The store after activating personality 2 in demoStore. -/
def demoStore2 : List Personality :=
  [{ id := 1, name := "Mishka", base_prompt := "be kind", is_active := false },
   { id := 2, name := "Pirate", base_prompt := "arr", is_active := true }]

/-- Modelled from the spec: the evolution-history backend is not in the
source tree.  rollback(id, target_log_id) appends a new log entry cloning the
target entry's traits, tagged with a rollback reason; the history is never
edited or truncated.  An unknown target log id is rejected (none). -/
def rollback (logs : List EvolutionLog) (pid targetId newId now : Nat) :
    Option (List EvolutionLog) :=
  match logs.find? (fun l => l.id == targetId) with
  | none => none
  | some target =>
      some (logs ++ [{ id := newId, personality_id := pid,
                       traits := target.traits, reason := "Rollback", created_at := now }])

/-- Insert a log into a list kept sorted by created_at descending. -/
def insertByCreatedDesc (l : EvolutionLog) : List EvolutionLog → List EvolutionLog
  | [] => [l]
  | h :: t =>
      if h.created_at ≤ l.created_at then l :: h :: t
      else h :: insertByCreatedDesc l t

/-- Modelled from the spec: the evolution-history backend is not in the
source tree.  history(id) returns the personality's EvolutionLog entries
ordered by created_at descending, newest first (insertion sort on the
stored entries). -/
def history (logs : List EvolutionLog) : List EvolutionLog :=
  logs.foldr insertByCreatedDesc []

/-- The ordering relation used by history: a precedes b when b is not newer. -/
def NewerFirst (a b : EvolutionLog) : Prop :=
  b.created_at ≤ a.created_at

/-- Embedded from Personality.tsx, ActiveDashboard: the current-traits panel
renders activeHistory[0].traits when the history is non-empty (the access is
guarded by the length check) and the placeholder text otherwise. -/
def renderCurrentTraits (activeHistory : List EvolutionLog) : String :=
  if h : 0 < activeHistory.length then
    (activeHistory.get ⟨0, h⟩).traits
  else
    "No evolved traits yet."

/-- Embedded from Personality.tsx, Timeline: one table row per history entry
(reason and traits snapshot, an empty traits blob shown as None), and when
the history is empty a single placeholder row instead. -/
def renderTimelineRows (activeHistory : List EvolutionLog) : List String :=
  (activeHistory.map (fun log =>
      log.reason ++ " | " ++ (if log.traits == "" then "None" else log.traits)))
    ++ (if activeHistory.length == 0 then ["No evolution history recorded yet."] else [])

/-- Modelled from the spec: the effective trait set used for context assembly
is the traits of the most recent EvolutionLog of the active personality,
resolved from the newest-first history (section 3, EvolutionLog). -/
def effectiveTraits (logs : List EvolutionLog) : Option String :=
  (history logs).head?.map EvolutionLog.traits

/-- The result of rendering a route element: either a redirect to some path
or the rendered child element. -/
inductive RenderResult (α : Type) where
  | redirect (dest : String)
  | rendered (child : α)
deriving DecidableEq

/-- JavaScript falsiness of a nullable string, as tested by the
if-not-token guard: null is falsy, and so is the empty string. -/
def jsFalsy : Option String → Bool
  | none => true
  | some s => s == ""

/-- Embedded from src/unnamed/part_001 (App routing shell): ProtectedRoute
reads the stored token and renders a redirect to /login when the token is
falsy, otherwise the child unchanged. -/
def ProtectedRoute {α : Type} (stored : Option String) (child : α) :
    RenderResult α :=
  if jsFalsy stored then RenderResult.redirect "/login"
  else RenderResult.rendered child

/-- A three-entry evolution history used to instantiate the history theorems. -/
def demoLogs : List EvolutionLog :=
  [{ id := 10, personality_id := 1, traits := "curious", reason := "evolve", created_at := 100 },
   { id := 11, personality_id := 1, traits := "bold", reason := "evolve", created_at := 300 },
   { id := 12, personality_id := 1, traits := "calm", reason := "evolve", created_at := 200 }]

/-- demoLogs after one rollback to entry 11. -/
def demoLogsRolled : List EvolutionLog :=
  demoLogs ++ [{ id := 20, personality_id := 1, traits := "bold",
                 reason := "Rollback", created_at := 400 }]

/-- Task record, as in the data model: conversation_id, message,
correlation_id.  Conversation and correlation ids are modelled as naturals. -/
structure Task where
  conversation_id : Nat
  message : String
  correlation_id : Nat
deriving DecidableEq

/-- State of the task intake serializer: tasks queued but not yet started,
tasks currently running in some worker, and logs of starts and arrivals used
to state the ordering guarantee. -/
structure IntakeState where
  pending : List Task
  running : List Task
  startedLog : List Task
  arrivedLog : List Task
deriving DecidableEq

/-- The empty intake state. -/
def initIntake : IntakeState :=
  { pending := [], running := [], startedLog := [], arrivedLog := [] }

/-- The tasks of one conversation, kept in order. -/
def forConv (cid : Nat) (l : List Task) : List Task :=
  l.filter (fun t => t.conversation_id == cid)

/-- Modelled from the spec: the task intake serializer backend is not in the
source tree.  Steps of the intake component (section 4.1): a task arrives
and is queued; a worker starts the first queued task of a conversation
provided no task of that conversation is in flight; a running task
finishes. -/
inductive IntakeStep : IntakeState → IntakeState → Prop where
  | enqueue (s : IntakeState) (t : Task) :
      IntakeStep s { pending := s.pending ++ [t], running := s.running,
                     startedLog := s.startedLog, arrivedLog := s.arrivedLog ++ [t] }
  | start (s : IntakeState) (t : Task) (bs as : List Task) :
      s.pending = bs ++ t :: as →
      (∀ u ∈ bs, u.conversation_id ≠ t.conversation_id) →
      (∀ u ∈ s.running, u.conversation_id ≠ t.conversation_id) →
      IntakeStep s { pending := bs ++ as, running := s.running ++ [t],
                     startedLog := s.startedLog ++ [t], arrivedLog := s.arrivedLog }
  | finish (s : IntakeState) (t : Task) (bs as : List Task) :
      s.running = bs ++ t :: as →
      IntakeStep s { pending := s.pending, running := bs ++ as,
                     startedLog := s.startedLog, arrivedLog := s.arrivedLog }

/-- Intake states reachable from the empty state. -/
inductive IntakeReachable : IntakeState → Prop where
  | init : IntakeReachable initIntake
  | step {s s' : IntakeState} :
      IntakeReachable s → IntakeStep s s' → IntakeReachable s'

/-- The intake invariant: per conversation at most one task is running, and
the arrival log is the start log followed by the queue, so tasks start in
arrival order. -/
def IntakeInv (s : IntakeState) : Prop :=
  ∀ cid : Nat, (forConv cid s.running).length ≤ 1 ∧
    forConv cid s.arrivedLog = forConv cid s.startedLog ++ forConv cid s.pending

/-- Two demo tasks for conversation 5 used to instantiate the intake
theorems. -/
def demoTask1 : Task :=
  { conversation_id := 5, message := "Remember: my favorite color is red", correlation_id := 1 }

/-- Second demo task for conversation 5. -/
def demoTask2 : Task :=
  { conversation_id := 5, message := "What is my favorite color?", correlation_id := 2 }

/-- The intake state after both demo tasks arrived and the first started. -/
def demoIntake : IntakeState :=
  { pending := [demoTask2], running := [demoTask1],
    startedLog := [demoTask1], arrivedLog := [demoTask1, demoTask2] }

/-- A tool-call request produced by the model inside one reasoning-loop
iteration (transient ToolCall of the data model). -/
structure ToolCall where
  tool_name : String
  arguments : List (String × String)
deriving DecidableEq

/-- A model-backend response: either a final answer or a list of structured
tool-call requests (section 4.4). -/
inductive ModelResp where
  | finalAnswer (text : String)
  | toolCalls (calls : List ToolCall)
deriving DecidableEq

/-- Terminal outcome of a reasoning loop: Done with the reply, or Failed
with the user-visible degraded reply. -/
inductive LoopOutcome where
  | done (reply : String)
  | failed (reply : String)
deriving DecidableEq

/-- The degraded reply published when the tool-round limit is hit. -/
def degradedReply : String :=
  "Mishka could not finish this request."

/-- Modelled from the spec: the reasoning loop backend is not in the source
tree.  One AwaitingModel round with the given number of tool-call rounds
still allowed: with no rounds left the task transitions to Failed with the
degraded reply; otherwise the model is consulted and either returns a final
answer (Done) or requests tool calls, consuming one round.  Returns the
outcome and the number of tool-call rounds used. -/
def runLoopGo (model : Nat → ModelResp) : Nat → Nat → LoopOutcome × Nat
  | 0, round => (LoopOutcome.failed degradedReply, round)
  | remaining + 1, round =>
      match model round with
      | ModelResp.finalAnswer s => (LoopOutcome.done s, round)
      | ModelResp.toolCalls _ => runLoopGo model remaining (round + 1)

/-- Run a reasoning loop with the configured maximum number of tool-call
rounds, starting at round zero. -/
def runLoop (model : Nat → ModelResp) (maxRounds : Nat) : LoopOutcome × Nat :=
  runLoopGo model maxRounds 0

/-- The replies published for a finished task: exactly one, also on
failure (section 7, best-effort apologetic reply). -/
def publishReplies (o : LoopOutcome) : List String :=
  match o with
  | LoopOutcome.done r => [r]
  | LoopOutcome.failed r => [r]

/-- A model backend that requests a tool call on every round, used to
instantiate the loop theorems. -/
def alwaysToolModel : Nat → ModelResp := fun _ =>
  ModelResp.toolCalls [{ tool_name := "remember_fact",
                         arguments := [("text", "favorite color is red")] }]

/-- Tool manifest: the parameters schema, modelled as the list of required
argument names (GET /manifest returns name, description,
parameters_schema). -/
structure ToolManifest where
  required : List String
deriving DecidableEq

/-- Tool record, as in the data model: name, endpoint, manifest,
description. -/
structure Tool where
  name : String
  endpoint : String
  manifest : ToolManifest
  description : String
deriving DecidableEq

/-- Outcome of the network call to a tool endpoint (POST /run): unreachable,
timed out, non-success response, or success. -/
inductive NetOutcome where
  | unreachable
  | timeout
  | httpError (status : Nat)
  | success (result : String)
deriving DecidableEq

/-- Structured tool errors returned to the reasoning loop (section 7
taxonomy restricted to invocation). -/
inductive ToolError where
  | validationError (msg : String)
  | networkError
  | timeoutError
  | httpFailure (status : Nat)
deriving DecidableEq

/-- Result of invoke: a structured result or a structured error, never an
exception. -/
inductive InvokeResult where
  | ok (result : String)
  | err (e : ToolError)
deriving DecidableEq

/-- Validate arguments against a manifest's parameter schema: every required
parameter must be supplied. -/
def validateArgs (m : ToolManifest) (args : List (String × String)) : Bool :=
  m.required.all (fun r => args.any (fun a => a.1 == r))

/-- Modelled from the spec: the tool registry and invoker backend is not in
the source tree.  invoke(tool_name, arguments) looks the tool up in the
discovered registry and validates the arguments against the cached
manifest's schema before any network call; every failure mode maps to a
structured error.  The Bool records whether a network call was made. -/
def invoke (registry : List Tool) (net : String → NetOutcome) (nm : String)
    (args : List (String × String)) : InvokeResult × Bool :=
  match registry.find? (fun t => t.name == nm) with
  | none => (InvokeResult.err (ToolError.validationError "unknown tool"), false)
  | some t =>
      if validateArgs t.manifest args then
        match net t.endpoint with
        | NetOutcome.success r => (InvokeResult.ok r, true)
        | NetOutcome.unreachable => (InvokeResult.err ToolError.networkError, true)
        | NetOutcome.timeout => (InvokeResult.err ToolError.timeoutError, true)
        | NetOutcome.httpError c => (InvokeResult.err (ToolError.httpFailure c), true)
      else
        (InvokeResult.err (ToolError.validationError "invalid arguments"), false)

/-- The one-tool demo registry (the memory tool of tools/memory). -/
def demoRegistry : List Tool :=
  [{ name := "remember_fact", endpoint := "http://tool-memory:8006/run",
     manifest := { required := ["text"] }, description := "save a fact" }]

/-- A fact retrieved by similarity, with its relevance score.  Scores are
modelled on a fixed per-mille scale (the README plan's 0.6 threshold is
600). -/
structure ScoredFact where
  text : String
  score : Nat
deriving DecidableEq

/-- Context assembler configuration: the relevance threshold (per-mille) and
the rag_fact_limit of the brain service's dynamic settings. -/
structure AssemblerConfig where
  relevance_threshold : Nat
  rag_fact_limit : Nat

/-- The composed context: base prompt, evolved traits and the retained
long-term-memory facts. -/
structure ContextBundle where
  base_prompt : String
  traits : String
  facts : List ScoredFact
deriving DecidableEq

/-- Modelled from the spec and the brain README: retain only facts whose
score exceeds the configured threshold, up to the configured maximum
count. -/
def retainFacts (cfg : AssemblerConfig) (facts : List ScoredFact) :
    List ScoredFact :=
  (facts.filter (fun f => cfg.relevance_threshold < f.score)).take cfg.rag_fact_limit

/-- Modelled from the spec: the context assembler backend is not in the
source tree.  build composes base prompt, evolved traits and retained facts;
when the memory collaborator is unavailable (no response) it proceeds with
no facts and records the degradation as an observability event (the second
component). -/
def build (cfg : AssemblerConfig) (base traits : String)
    (memoryResponse : Option (List ScoredFact)) : ContextBundle × List String :=
  match memoryResponse with
  | some facts =>
      ({ base_prompt := base, traits := traits, facts := retainFacts cfg facts }, [])
  | none =>
      ({ base_prompt := base, traits := traits, facts := [] }, ["memory_unavailable"])

/-- Demo assembler configuration: threshold 0.6 (600 per mille), at most two
facts. -/
def demoCfg : AssemblerConfig :=
  { relevance_threshold := 600, rag_fact_limit := 2 }

/-- Demo retrieved facts with scores on both sides of the threshold. -/
def demoFacts : List ScoredFact :=
  [{ text := "User likes sushi", score := 900 },
   { text := "User lives in Moscow", score := 500 },
   { text := "favorite color is red", score := 700 },
   { text := "User has a cat", score := 800 }]

end Mishka

namespace Mishka

theorem countActive_append (ps qs : List Personality) :
    countActive (ps ++ qs) = countActive ps + countActive qs := by
  simp [countActive, List.filter_append]

theorem filter_active_map (f : Personality → Personality)
    (h : ∀ p, (f p).is_active = p.is_active) (ps : List Personality) :
    (ps.map f).filter (fun p => p.is_active)
      = (ps.filter (fun p => p.is_active)).map f := by
  induction ps with
  | nil => rfl
  | cons p rest ih =>
    by_cases hp : p.is_active
    · simp [List.filter_cons, h p, hp, ih]
    · simp [List.filter_cons, h p, hp, ih]

theorem countActive_map_of_active_eq (f : Personality → Personality)
    (h : ∀ p, (f p).is_active = p.is_active) (ps : List Personality) :
    countActive (ps.map f) = countActive ps := by
  rw [countActive, filter_active_map f h, List.length_map]
  rfl

theorem filter_id_eq_nil_of_not_mem (ps : List Personality) (target : Nat)
    (h : target ∉ ps.map Personality.id) :
    ps.filter (fun p => p.id == target) = [] := by
  induction ps with
  | nil => rfl
  | cons p rest ih =>
    simp only [List.map_cons, List.mem_cons, not_or] at h
    have hp : (p.id == target) = false := by
      simp only [beq_eq_false_iff_ne, ne_eq]
      exact fun hc => h.1 hc.symm
    simp [List.filter_cons, hp, ih h.2]

theorem length_filter_id_eq_one (ps : List Personality) (target : Nat)
    (hnd : (ps.map Personality.id).Nodup)
    (hmem : target ∈ ps.map Personality.id) :
    (ps.filter (fun p => p.id == target)).length = 1 := by
  induction ps with
  | nil => simp at hmem
  | cons p rest ih =>
    simp only [List.map_cons, List.nodup_cons] at hnd
    simp only [List.map_cons, List.mem_cons] at hmem
    by_cases hp : p.id = target
    · have hnil : rest.filter (fun q => q.id == target) = [] :=
        filter_id_eq_nil_of_not_mem rest target (hp ▸ hnd.1)
      simp [List.filter_cons, hp, hnil]
    · have hmem' : target ∈ rest.map Personality.id := by
        rcases hmem with h1 | h2
        · exact absurd h1.symm hp
        · exact h2
      have hpb : (p.id == target) = false := by
        simp only [beq_eq_false_iff_ne, ne_eq]; exact hp
      simp [List.filter_cons, hpb, ih hnd.2 hmem']

theorem filter_active_activate_map (ps : List Personality) (target : Nat) :
    (ps.map (fun p => { p with is_active := p.id == target })).filter
        (fun p => p.is_active)
      = (ps.filter (fun p => p.id == target)).map
          (fun p => { p with is_active := p.id == target }) := by
  induction ps with
  | nil => rfl
  | cons p rest ih =>
    by_cases hp : p.id == target
    · simp [List.filter_cons, hp, ih]
    · simp only [Bool.not_eq_true] at hp
      simp [List.filter_cons, hp, ih]

theorem countActive_activate (ps : List Personality) (target : Nat)
    (hnd : (ps.map Personality.id).Nodup)
    (hmem : target ∈ ps.map Personality.id) :
    countActive (ps.map (fun p => { p with is_active := p.id == target })) = 1 := by
  rw [countActive, filter_active_activate_map ps target, List.length_map]
  exact length_filter_id_eq_one ps target hnd hmem

theorem map_id_activate (ps : List Personality) (target : Nat) :
    (ps.map (fun p => { p with is_active := p.id == target })).map
        Personality.id = ps.map Personality.id := by
  rw [List.map_map]
  exact List.map_congr_left fun p _ => rfl

theorem map_id_updateP (ps : List Personality) (target : Nat) (nm base : String) :
    (updateP ps target nm base).map Personality.id = ps.map Personality.id := by
  rw [updateP, List.map_map]
  apply List.map_congr_left
  intro p _
  show (if p.id == target then _ else p).id = p.id
  split <;> rfl

theorem storeInv_of_reachable (ps : List Personality)
    (h : StoreReachable ps) : StoreInv ps := by
  induction h with
  | init i nm base => exact ⟨by simp, by simp [countActive]⟩
  | @create ps newId nm base hr hfresh ih =>
    constructor
    · simp only [Mishka.create, List.map_append, List.map_cons, List.map_nil]
      rw [List.nodup_append]
      refine ⟨ih.1, List.nodup_singleton _, ?_⟩
      intro a ha hb
      simp only [List.mem_singleton] at hb
      subst hb
      exact hfresh ha
    · rw [Mishka.create, countActive_append]
      have h0 : countActive
          [{ id := newId, name := nm, base_prompt := base, is_active := false }] = 0 := by
        simp [countActive]
      rw [h0, ih.2]
  | @update ps target nm base hr ih =>
    constructor
    · rw [map_id_updateP]
      exact ih.1
    · rw [updateP, countActive_map_of_active_eq]
      · exact ih.2
      · intro p
        by_cases hp : p.id == target <;> simp [hp]
  | @activate ps ps' target hr hact ih =>
    rw [Mishka.activate] at hact
    split at hact
    · rename_i hany
      have hact' := Option.some.inj hact
      subst hact'
      have hmem : target ∈ ps.map Personality.id := by
        rw [List.any_eq_true] at hany
        obtain ⟨p, hp, hpe⟩ := hany
        rw [beq_iff_eq] at hpe
        exact hpe ▸ List.mem_map_of_mem Personality.id hp
      constructor
      · rw [map_id_activate]
        exact ih.1
      · exact countActive_activate ps target ih.1 hmem
    · exact absurd hact (by simp)

end Mishka

namespace Mishka

/-- C1: in every reachable state of the personality store exactly one
personality is active, and activate(target) yields a state in which the
target is the one active personality and all others are inactive, so a
reader never observes zero or two active personalities. -/
theorem active_personality_unique (ps ps' : List Personality) (target : Nat)
    (hr : StoreReachable ps) :
    countActive ps = 1 ∧
    (activate ps target = some ps' →
      countActive ps' = 1 ∧ ∀ p ∈ ps', p.is_active = (p.id == target)) := by
  refine ⟨(storeInv_of_reachable ps hr).2, fun hact => ?_⟩
  have hr' := StoreReachable.activate target hr hact
  refine ⟨(storeInv_of_reachable ps' hr').2, ?_⟩
  rw [Mishka.activate] at hact
  split at hact
  · have h := Option.some.inj hact
    subst h
    intro p hp
    rw [List.mem_map] at hp
    obtain ⟨q, hq, rfl⟩ := hp
    rfl
  · exact absurd hact (by simp)

/-- Witness for C1 at the concrete two-personality demo store. -/
theorem active_personality_unique_witness :
    countActive demoStore = 1 ∧
    (activate demoStore 2 = some demoStore2 →
      countActive demoStore2 = 1 ∧ ∀ p ∈ demoStore2, p.is_active = (p.id == 2)) :=
  active_personality_unique demoStore demoStore2 2
    (StoreReachable.create 2 "Pirate" "arr"
      (StoreReachable.init 1 "Mishka" "be kind") (by decide))

theorem find?_append_of_some {p : EvolutionLog → Bool} {logs : List EvolutionLog}
    {t : EvolutionLog} (h : logs.find? p = some t) (l : List EvolutionLog) :
    (logs ++ l).find? p = some t := by
  induction logs with
  | nil => simp [List.find?] at h
  | cons a rest ih =>
    rw [List.cons_append]
    cases hpa : p a
    · rw [List.find?_cons_of_neg _ (by simp [hpa])] at h
      rw [List.find?_cons_of_neg _ (by simp [hpa])]
      exact ih h
    · rw [List.find?_cons_of_pos _ hpa] at h
      rw [List.find?_cons_of_pos _ hpa]
      exact h

/-- C4: rollback appends one new log cloning the target's traits and leaves
the existing history (the target included) unchanged; a second rollback to
the same target appends a second log with identical traits, again without
editing or truncating the earlier entries. -/
theorem rollback_append_only (logs logs₁ : List EvolutionLog)
    (pid t n₁ now₁ : Nat) (h : rollback logs pid t n₁ now₁ = some logs₁) :
    ∃ target, logs.find? (fun l => l.id == t) = some target ∧
      logs₁ = logs ++ [{ id := n₁, personality_id := pid, traits := target.traits,
                         reason := "Rollback", created_at := now₁ }] ∧
      ∀ n₂ now₂ : Nat,
        rollback logs₁ pid t n₂ now₂ =
          some (logs ++
            [{ id := n₁, personality_id := pid, traits := target.traits,
               reason := "Rollback", created_at := now₁ },
             { id := n₂, personality_id := pid, traits := target.traits,
               reason := "Rollback", created_at := now₂ }]) := by
  rw [rollback] at h
  cases hf : logs.find? (fun l => l.id == t) with
  | none => rw [hf] at h; exact absurd h (by simp)
  | some target =>
    rw [hf] at h
    have h1 := Option.some.inj h
    refine ⟨target, rfl, h1.symm, fun n₂ now₂ => ?_⟩
    subst h1
    rw [rollback, find?_append_of_some hf]
    simp

/-- Witness for C4 at the concrete three-entry demo history. -/
theorem rollback_append_only_witness :
    ∃ target, demoLogs.find? (fun l => l.id == 11) = some target ∧
      demoLogsRolled = demoLogs ++
        [{ id := 20, personality_id := 1, traits := target.traits,
           reason := "Rollback", created_at := 400 }] ∧
      ∀ n₂ now₂ : Nat,
        rollback demoLogsRolled 1 11 n₂ now₂ =
          some (demoLogs ++
            [{ id := 20, personality_id := 1, traits := target.traits,
               reason := "Rollback", created_at := 400 },
             { id := n₂, personality_id := 1, traits := target.traits,
               reason := "Rollback", created_at := now₂ }]) :=
  rollback_append_only demoLogs demoLogsRolled 1 11 20 400 (by rfl)

end Mishka

namespace Mishka

theorem perm_insertByCreatedDesc (l : EvolutionLog) (xs : List EvolutionLog) :
    (insertByCreatedDesc l xs).Perm (l :: xs) := by
  induction xs with
  | nil => exact List.Perm.refl _
  | cons a t ih =>
    rw [insertByCreatedDesc]
    split
    · exact List.Perm.refl _
    · exact (List.Perm.cons a ih).trans (List.Perm.swap l a t)

theorem mem_insertByCreatedDesc {b l : EvolutionLog} {xs : List EvolutionLog}
    (h : b ∈ insertByCreatedDesc l xs) : b = l ∨ b ∈ xs := by
  have := (perm_insertByCreatedDesc l xs).mem_iff.mp h
  simpa using this

theorem pairwise_insertByCreatedDesc (l : EvolutionLog) (xs : List EvolutionLog)
    (h : xs.Pairwise NewerFirst) :
    (insertByCreatedDesc l xs).Pairwise NewerFirst := by
  induction xs with
  | nil => simp [insertByCreatedDesc, List.pairwise_singleton]
  | cons a t ih =>
    rw [List.pairwise_cons] at h
    rw [insertByCreatedDesc]
    split
    · rename_i hle
      rw [List.pairwise_cons]
      refine ⟨?_, List.pairwise_cons.mpr h⟩
      intro b hb
      rcases List.mem_cons.mp hb with hb | hb
      · subst hb; exact hle
      · exact le_trans (h.1 b hb) hle
    · rename_i hgt
      push_neg at hgt
      rw [List.pairwise_cons]
      refine ⟨?_, ih h.2⟩
      intro b hb
      rcases mem_insertByCreatedDesc hb with hb | hb
      · subst hb; exact le_of_lt hgt
      · exact h.1 b hb

theorem perm_history (logs : List EvolutionLog) : (history logs).Perm logs := by
  induction logs with
  | nil => exact List.Perm.refl _
  | cons a t ih =>
    show (insertByCreatedDesc a (history t)).Perm (a :: t)
    exact (perm_insertByCreatedDesc a (history t)).trans (List.Perm.cons a ih)

theorem pairwise_history (logs : List EvolutionLog) :
    (history logs).Pairwise NewerFirst := by
  induction logs with
  | nil => exact List.Pairwise.nil
  | cons a t ih => exact pairwise_insertByCreatedDesc a (history t) ih

/-- C5: for a personality with a non-empty evolution history, history returns
the log entries newest first (sorted by created_at descending, a permutation
of the stored entries), and the effective trait set used for context assembly
is the traits of the first, most recent, element. -/
theorem history_newest_first (logs : List EvolutionLog) (hne : logs ≠ []) :
    (history logs).Pairwise NewerFirst ∧
    (history logs).Perm logs ∧
    ∃ h rest, history logs = h :: rest ∧
      (∀ l ∈ logs, l.created_at ≤ h.created_at) ∧
      effectiveTraits logs = some h.traits := by
  refine ⟨pairwise_history logs, perm_history logs, ?_⟩
  have hlen : (history logs).length = logs.length := (perm_history logs).length_eq
  have hne' : history logs ≠ [] := by
    intro hc
    apply hne
    rw [← List.length_eq_zero, ← hlen, hc]
    rfl
  obtain ⟨h, rest, hcons⟩ := List.exists_cons_of_ne_nil hne'
  refine ⟨h, rest, hcons, ?_, ?_⟩
  · intro l hl
    have hl' : l ∈ history logs := (perm_history logs).mem_iff.mpr hl
    rw [hcons] at hl'
    rcases List.mem_cons.mp hl' with hl' | hl'
    · subst hl'; exact le_refl _
    · have hp := pairwise_history logs
      rw [hcons, List.pairwise_cons] at hp
      exact hp.1 l hl'
  · rw [effectiveTraits, hcons]
    rfl

/-- Witness for C5 at the concrete three-entry demo history: the newest
entry (created_at 300, traits bold) comes first. -/
theorem history_newest_first_witness :
    ((history demoLogs).Pairwise NewerFirst ∧
      (history demoLogs).Perm demoLogs ∧
      ∃ h rest, history demoLogs = h :: rest ∧
        (∀ l ∈ demoLogs, l.created_at ≤ h.created_at) ∧
        effectiveTraits demoLogs = some h.traits) ∧
    effectiveTraits demoLogs = some "bold" :=
  ⟨history_newest_first demoLogs (by decide), by rfl⟩

/-- C9: rendering the personality page is total in the history length; the
first-element access is guarded, and an empty history renders the two
placeholder texts instead of indexing into the empty list. -/
theorem personality_page_rendering_total (hist : List EvolutionLog) :
    (hist = [] → renderCurrentTraits hist = "No evolved traits yet." ∧
      renderTimelineRows hist = ["No evolution history recorded yet."]) ∧
    ∀ hlen : 0 < hist.length,
      renderCurrentTraits hist = (hist.get ⟨0, hlen⟩).traits ∧
      (renderTimelineRows hist).length = hist.length := by
  constructor
  · rintro rfl
    exact ⟨rfl, rfl⟩
  · intro hlen
    constructor
    · rw [renderCurrentTraits, dif_pos hlen]
    · have hz : (hist.length == 0) = false := by
        simp only [beq_eq_false_iff_ne, ne_eq]
        omega
      simp [renderTimelineRows, hz]

/-- Witness for C9: the empty history renders both placeholders, and the
demo history renders its first entry's traits. -/
theorem personality_page_rendering_total_witness :
    (renderCurrentTraits [] = "No evolved traits yet." ∧
      renderTimelineRows [] = ["No evolution history recorded yet."]) ∧
    renderCurrentTraits demoLogs = "curious" := by
  refine ⟨(personality_page_rendering_total []).1 rfl, ?_⟩
  have h := (personality_page_rendering_total demoLogs).2 (by decide)
  rw [h.1]
  rfl

/-- C10 counterexample: an empty-string token is a stored token, yet
ProtectedRoute redirects to /login instead of rendering the child, because
the guard tests JavaScript falsiness rather than absence. -/
theorem protectedRoute_empty_token_counterexample :
    ProtectedRoute (some "") (0 : Nat) = RenderResult.redirect "/login" ∧
    ¬ ∀ s : String, ProtectedRoute (some s) (0 : Nat) = RenderResult.rendered 0 := by
  constructor
  · rfl
  · intro h
    have := h ""
    rw [ProtectedRoute] at this
    simp [jsFalsy] at this

/-- C10 (amended): with no stored token ProtectedRoute renders a redirect to
/login and not the child; with a stored non-empty token it renders the child
unchanged; and the child is never rendered unless a non-empty token is
stored. -/
theorem protectedRoute_guards_dashboard {α : Type} (stored : Option String)
    (child : α) :
    (stored = none → ProtectedRoute stored child = RenderResult.redirect "/login") ∧
    (∀ s : String, stored = some s → s ≠ "" →
      ProtectedRoute stored child = RenderResult.rendered child) ∧
    (ProtectedRoute stored child = RenderResult.rendered child →
      ∃ s, stored = some s ∧ s ≠ "") := by
  cases stored with
  | none =>
    refine ⟨fun _ => rfl, fun s hs => absurd hs (by simp), fun h => ?_⟩
    rw [ProtectedRoute] at h
    simp [jsFalsy] at h
  | some s =>
    by_cases hs : s = ""
    · subst hs
      refine ⟨fun h => by simp at h, fun s' hs' hne => ?_, fun h => ?_⟩
      · have he : "" = s' := Option.some.inj hs'
        exact absurd he.symm hne
      · rw [ProtectedRoute] at h
        simp [jsFalsy] at h
    · have hfal : jsFalsy (some s) = false := by
        simp [jsFalsy]
        exact hs
      refine ⟨fun h => by simp at h, fun s' hs' hne => ?_, fun h => ⟨s, rfl, hs⟩⟩
      rw [ProtectedRoute, hfal]
      simp

/-- Witness for C10 (amended): no token redirects, a non-empty token renders
the dashboard child. -/
theorem protectedRoute_guards_dashboard_witness :
    ProtectedRoute none (7 : Nat) = RenderResult.redirect "/login" ∧
    ProtectedRoute (some "tok") (7 : Nat) = RenderResult.rendered 7 :=
  ⟨(protectedRoute_guards_dashboard none (7 : Nat)).1 rfl,
   (protectedRoute_guards_dashboard (some "tok") (7 : Nat)).2.1 "tok" rfl (by decide)⟩

end Mishka

namespace Mishka

theorem forConv_append (cid : Nat) (l l' : List Task) :
    forConv cid (l ++ l') = forConv cid l ++ forConv cid l' := by
  simp [forConv, List.filter_append]

theorem forConv_eq_nil (cid : Nat) :
    ∀ (l : List Task), (∀ u ∈ l, u.conversation_id ≠ cid) → forConv cid l = []
  | [], _ => rfl
  | a :: t, h => by
    have ha : (a.conversation_id == cid) = false := by
      simp only [beq_eq_false_iff_ne, ne_eq]
      exact h a (List.mem_cons_self a t)
    have ht := forConv_eq_nil cid t (fun u hu => h u (List.mem_cons_of_mem a hu))
    simp only [forConv, List.filter_cons, ha] at ht ⊢
    simpa using ht

theorem not_mem_of_forConv_eq_nil {cid : Nat} {l : List Task}
    (h : forConv cid l = []) : ∀ u ∈ l, u.conversation_id ≠ cid := by
  intro u hu hc
  have : u ∈ forConv cid l := by
    rw [forConv, List.mem_filter]
    exact ⟨hu, by simp [hc]⟩
  rw [h] at this
  simp at this

theorem exists_first_forConv (cid : Nat) :
    ∀ (l : List Task), forConv cid l ≠ [] →
      ∃ bs x as, l = bs ++ x :: as ∧ x.conversation_id = cid ∧
        ∀ u ∈ bs, u.conversation_id ≠ cid
  | [], h => absurd rfl h
  | a :: t, h => by
    cases ha : (a.conversation_id == cid) with
    | true =>
      exact ⟨[], a, t, rfl, by simpa using ha, by simp⟩
    | false =>
      have h' : forConv cid t ≠ [] := by
        simpa [forConv, List.filter_cons, ha] using h
      obtain ⟨bs, x, as, rfl, hx, hbs⟩ := exists_first_forConv cid t h'
      refine ⟨a :: bs, x, as, rfl, hx, ?_⟩
      intro u hu
      rcases List.mem_cons.mp hu with rfl | hu
      · simpa using ha
      · exact hbs u hu

theorem forConv_cons_self (t : Task) (l : List Task) :
    forConv t.conversation_id (t :: l) = t :: forConv t.conversation_id l := by
  simp [forConv, List.filter_cons]

theorem forConv_cons_ne (cid : Nat) (t : Task) (l : List Task)
    (h : t.conversation_id ≠ cid) :
    forConv cid (t :: l) = forConv cid l := by
  have ht : (t.conversation_id == cid) = false := by
    simp only [beq_eq_false_iff_ne, ne_eq]
    exact h
  simp [forConv, List.filter_cons, ht]

theorem intakeInv_of_reachable (s : IntakeState) (hr : IntakeReachable s) :
    IntakeInv s := by
  induction hr with
  | init =>
    intro cid
    exact ⟨by simp [initIntake, forConv], by simp [initIntake, forConv]⟩
  | @step s s' hr hstep ih =>
    cases hstep with
    | enqueue t =>
      intro cid
      refine ⟨(ih cid).1, ?_⟩
      show forConv cid (s.arrivedLog ++ [t])
        = forConv cid s.startedLog ++ forConv cid (s.pending ++ [t])
      rw [forConv_append, forConv_append, (ih cid).2, List.append_assoc]
    | start t bs as hsp hbs hrun =>
      intro cid
      by_cases hc : t.conversation_id = cid
      · subst hc
        constructor
        · show (forConv t.conversation_id (s.running ++ [t])).length ≤ 1
          rw [forConv_append, forConv_eq_nil t.conversation_id s.running hrun]
          simp [forConv_cons_self, forConv]
        · show forConv t.conversation_id s.arrivedLog
            = forConv t.conversation_id (s.startedLog ++ [t])
              ++ forConv t.conversation_id (bs ++ as)
          have h2 := (ih t.conversation_id).2
          rw [hsp] at h2
          rw [h2, forConv_append, forConv_append, forConv_append,
            forConv_eq_nil t.conversation_id bs hbs, forConv_cons_self,
            forConv_cons_self]
          simp [forConv]
      · constructor
        · show (forConv cid (s.running ++ [t])).length ≤ 1
          rw [forConv_append, forConv_cons_ne cid t [] hc]
          simpa [forConv] using (ih cid).1
        · show forConv cid s.arrivedLog
            = forConv cid (s.startedLog ++ [t]) ++ forConv cid (bs ++ as)
          have h2 := (ih cid).2
          rw [hsp] at h2
          rw [h2, forConv_append, forConv_append, forConv_append,
            forConv_cons_ne cid t [] hc, forConv_cons_ne cid t as hc]
          simp [forConv]
    | finish t bs as hsp =>
      intro cid
      refine ⟨?_, (ih cid).2⟩
      have h1 := (ih cid).1
      rw [hsp, forConv_append] at h1
      show (forConv cid (bs ++ as)).length ≤ 1
      rw [forConv_append]
      by_cases hc : t.conversation_id = cid
      · subst hc
        rw [forConv_cons_self] at h1
        simp only [List.length_append, List.length_cons] at h1 ⊢
        omega
      · rw [forConv_cons_ne cid t as hc] at h1
        exact h1

/-- C2: in every reachable intake state, at most one task per conversation
is in flight, the tasks of a conversation start in their arrival order, and
when no task of the conversation is running while some is queued, an intake
step exists that starts exactly the first queued task of that conversation
(so a task queued behind an in-flight one is later executed). -/
theorem per_conversation_serialization (s : IntakeState)
    (hr : IntakeReachable s) (cid : Nat) :
    (forConv cid s.running).length ≤ 1 ∧
    forConv cid s.arrivedLog
      = forConv cid s.startedLog ++ forConv cid s.pending ∧
    (forConv cid s.running = [] → forConv cid s.pending ≠ [] →
      ∃ x s', (forConv cid s.pending).head? = some x ∧ IntakeStep s s' ∧
        s'.startedLog = s.startedLog ++ [x]) := by
  obtain ⟨h1, h2⟩ := intakeInv_of_reachable s hr cid
  refine ⟨h1, h2, fun hrun0 hpne => ?_⟩
  obtain ⟨bs, x, as, hsp, hx, hbs⟩ := exists_first_forConv cid s.pending hpne
  have hbs' : ∀ u ∈ bs, u.conversation_id ≠ x.conversation_id := by
    rw [hx]
    exact hbs
  have hrun' : ∀ u ∈ s.running, u.conversation_id ≠ x.conversation_id := by
    rw [hx]
    exact not_mem_of_forConv_eq_nil hrun0
  refine ⟨x, _, ?_, IntakeStep.start s x bs as hsp hbs' hrun', rfl⟩
  rw [hsp, forConv_append, forConv_eq_nil cid bs hbs]
  rw [← hx, forConv_cons_self]
  rfl

/-- Witness for C2 at the concrete demo intake state: both tasks of
conversation 5 arrived, the first is in flight, the second queued behind
it. -/
theorem per_conversation_serialization_witness :
    (forConv 5 demoIntake.running).length ≤ 1 ∧
    forConv 5 demoIntake.arrivedLog
      = forConv 5 demoIntake.startedLog ++ forConv 5 demoIntake.pending ∧
    (forConv 5 demoIntake.running = [] → forConv 5 demoIntake.pending ≠ [] →
      ∃ x s', (forConv 5 demoIntake.pending).head? = some x ∧
        IntakeStep demoIntake s' ∧
        s'.startedLog = demoIntake.startedLog ++ [x]) :=
  per_conversation_serialization demoIntake
    (IntakeReachable.step
      (IntakeReachable.step
        (IntakeReachable.step IntakeReachable.init
          (IntakeStep.enqueue initIntake demoTask1))
        (IntakeStep.enqueue _ demoTask2))
      (IntakeStep.start _ demoTask1 [] [demoTask2] rfl (by simp) (by simp [initIntake])))
    5

end Mishka

namespace Mishka

theorem runLoopGo_spec (model : Nat → ModelResp) :
    ∀ remaining round : Nat,
      round ≤ (runLoopGo model remaining round).2 ∧
      (runLoopGo model remaining round).2 ≤ round + remaining ∧
      (publishReplies (runLoopGo model remaining round).1).length = 1 ∧
      ((∀ r, round ≤ r → r < round + remaining →
          ∃ calls, model r = ModelResp.toolCalls calls) →
        runLoopGo model remaining round
          = (LoopOutcome.failed degradedReply, round + remaining))
  | 0, round => by
    refine ⟨le_refl _, by simp [runLoopGo], by simp [runLoopGo, publishReplies], ?_⟩
    intro _
    simp [runLoopGo]
  | remaining + 1, round => by
    obtain ⟨ih1, ih2, ih3, ih4⟩ := runLoopGo_spec model remaining (round + 1)
    cases hm : model round with
    | finalAnswer s =>
      have hrun : runLoopGo model (remaining + 1) round
          = (LoopOutcome.done s, round) := by
        rw [runLoopGo, hm]
      rw [hrun]
      refine ⟨le_refl _, by omega, by simp [publishReplies], ?_⟩
      intro hall
      obtain ⟨calls, hc⟩ := hall round (le_refl _) (by omega)
      rw [hm] at hc
      exact absurd hc (by simp)
    | toolCalls calls =>
      have hrun : runLoopGo model (remaining + 1) round
          = runLoopGo model remaining (round + 1) := by
        rw [runLoopGo, hm]
      rw [hrun]
      refine ⟨by omega, by omega, ih3, ?_⟩
      intro hall
      have h4 := ih4 (fun r hr1 hr2 => hall r (by omega) (by omega))
      rw [h4]
      have he : round + 1 + remaining = round + (remaining + 1) := by omega
      rw [he]

/-- C3: the reasoning loop performs at most the configured maximum number of
tool-call rounds; a model that requests tool calls on every round drives the
task to the Failed outcome with the degraded reply at exactly the round
limit, and every outcome publishes exactly one reply. -/
theorem reasoning_loop_bounded (model : Nat → ModelResp) (maxRounds : Nat) :
    (runLoop model maxRounds).2 ≤ maxRounds ∧
    (publishReplies (runLoop model maxRounds).1).length = 1 ∧
    ((∀ r < maxRounds, ∃ calls, model r = ModelResp.toolCalls calls) →
      runLoop model maxRounds = (LoopOutcome.failed degradedReply, maxRounds)) := by
  obtain ⟨h1, h2, h3, h4⟩ := runLoopGo_spec model maxRounds 0
  rw [runLoop]
  refine ⟨by omega, h3, fun hall => ?_⟩
  have h := h4 (fun r hr1 hr2 => hall r (by omega))
  rw [h]
  simp

/-- Witness for C3: with the always-tool-calling model and a limit of two
rounds, the loop fails at round two and one reply is published. -/
theorem reasoning_loop_bounded_witness :
    (runLoop alwaysToolModel 2).2 ≤ 2 ∧
    (publishReplies (runLoop alwaysToolModel 2).1).length = 1 ∧
    runLoop alwaysToolModel 2 = (LoopOutcome.failed degradedReply, 2) := by
  obtain ⟨h1, h2, h3⟩ := reasoning_loop_bounded alwaysToolModel 2
  exact ⟨h1, h2, h3 (fun r _ => ⟨_, rfl⟩)⟩

/-- C6: invoke validates before any network call: an undiscovered tool name
or arguments failing the cached manifest's schema yield a validation error
with no network call made, and every network failure mode (unreachable,
timeout, non-success response) yields the corresponding structured error
value rather than an exception. -/
theorem invoke_validates_before_network (registry : List Tool)
    (net : String → NetOutcome) (nm : String)
    (args : List (String × String)) :
    (registry.find? (fun t => t.name == nm) = none →
      invoke registry net nm args
        = (InvokeResult.err (ToolError.validationError "unknown tool"), false)) ∧
    (∀ t, registry.find? (fun t => t.name == nm) = some t →
      validateArgs t.manifest args = false →
      invoke registry net nm args
        = (InvokeResult.err (ToolError.validationError "invalid arguments"), false)) ∧
    (∀ t, registry.find? (fun t => t.name == nm) = some t →
      validateArgs t.manifest args = true →
      (net t.endpoint = NetOutcome.unreachable →
        invoke registry net nm args = (InvokeResult.err ToolError.networkError, true)) ∧
      (net t.endpoint = NetOutcome.timeout →
        invoke registry net nm args = (InvokeResult.err ToolError.timeoutError, true)) ∧
      (∀ c, net t.endpoint = NetOutcome.httpError c →
        invoke registry net nm args = (InvokeResult.err (ToolError.httpFailure c), true)) ∧
      (∀ r, net t.endpoint = NetOutcome.success r →
        invoke registry net nm args = (InvokeResult.ok r, true))) := by
  refine ⟨fun h => by simp only [invoke, h], fun t ht hv => ?_, fun t ht hv => ?_⟩
  · simp only [invoke, ht, hv]
    simp
  · refine ⟨fun h => ?_, fun h => ?_, fun c h => ?_, fun r h => ?_⟩
    all_goals simp only [invoke, ht, hv, h]
    all_goals simp

/-- Witness for C6: the unknown tool name weather is rejected without a
network call, and a timeout on the known memory tool maps to the structured
timeout error. -/
theorem invoke_validates_before_network_witness :
    invoke demoRegistry (fun _ => NetOutcome.timeout) "weather" []
      = (InvokeResult.err (ToolError.validationError "unknown tool"), false) ∧
    invoke demoRegistry (fun _ => NetOutcome.timeout) "remember_fact"
        [("text", "favorite color is red")]
      = (InvokeResult.err ToolError.timeoutError, true) :=
  ⟨(invoke_validates_before_network demoRegistry (fun _ => NetOutcome.timeout)
      "weather" []).1 (by decide),
   ((invoke_validates_before_network demoRegistry (fun _ => NetOutcome.timeout)
      "remember_fact" [("text", "favorite color is red")]).2.2
      (demoRegistry.get ⟨0, by decide⟩) (by decide) (by decide)).2.1 rfl⟩

/-- C7: the facts included in a built ContextBundle all have relevance score
above the configured threshold, and their number never exceeds the
configured maximum fact count. -/
theorem context_facts_filtered (cfg : AssemblerConfig) (base traits : String)
    (facts : List ScoredFact) :
    (∀ f ∈ ((build cfg base traits (some facts)).1).facts,
      cfg.relevance_threshold < f.score) ∧
    ((build cfg base traits (some facts)).1).facts.length ≤ cfg.rag_fact_limit := by
  constructor
  · intro f hf
    simp only [build, retainFacts] at hf
    have hf' := List.take_subset cfg.rag_fact_limit _ hf
    have := List.of_mem_filter hf'
    exact of_decide_eq_true this
  · simp only [build, retainFacts, List.length_take]
    exact min_le_left _ _

/-- Witness for C7 at the demo facts and the 0.6-threshold, two-fact
configuration: the top retained fact clears the threshold and at most two
facts are retained. -/
theorem context_facts_filtered_witness :
    demoCfg.relevance_threshold
        < ({ text := "User likes sushi", score := 900 } : ScoredFact).score ∧
    ((build demoCfg "base" "traits" (some demoFacts)).1).facts.length
        ≤ demoCfg.rag_fact_limit :=
  ⟨(context_facts_filtered demoCfg "base" "traits" demoFacts).1
      { text := "User likes sushi", score := 900 } (by decide),
   (context_facts_filtered demoCfg "base" "traits" demoFacts).2⟩

/-- C8: when the memory collaborator is unavailable the assembler still
succeeds: the bundle carries the base prompt and the evolved traits with no
facts, and the degradation is recorded as an observability event. -/
theorem memory_unavailable_degrades (cfg : AssemblerConfig)
    (base traits : String) :
    build cfg base traits none
      = ({ base_prompt := base, traits := traits, facts := [] },
         ["memory_unavailable"]) := rfl

end Mishka
